import Mathlib

/-
  Verification development for the heuristic constructive scheduler
  (files `run_heuristic.py`, `heuristic.py`, `run_greedy.py`).

  The Python code is embedded shallowly: machine floats become exact
  rationals (ℚ), numpy arrays become functions from indices, python sets
  of placed triples become lists, and the loops become structural
  recursions / folds.  Random tie-break keys only influence the order of
  the candidate lists, so the candidate lists are taken as inputs: every
  theorem quantified over such a list holds for every random seed.
-/

/-! ## Embedding of `run_heuristic.py` -/

/-- A candidate record, the embedded form of
`Rec = namedtuple("Rec","k t c task val coef")` from `run_heuristic.py`,
after the course/task names have been replaced by their dense indices
(`c2i`, `t2j`).  `val` and `coef` only enter through the ordering of the
candidate list, which is a parameter of the embedding. -/
structure HRec where
  k : Nat
  t : Nat
  i : Nat
  j : Nat
deriving DecidableEq

/-- The data an instance provides to `greedy` in `run_heuristic.py`:
`P4`, `S2`, `E2` (dense blocks built by `build_numpy_blocks`), the course
weights `w`, the pass lines `B`, the daily caps `Hk` (`H*`), the overtime
rate `beta`, and the dimensions `K`, `T`, `I`, `Jmax`. -/
structure HInst where
  K : Nat
  T : Nat
  I : Nat
  Jmax : Nat
  P4 : Nat → Nat → Nat → Nat → ℚ
  S2 : Nat → Nat → ℚ
  E2 : Nat → Nat → ℚ
  w : Nat → ℚ
  beta : ℚ
  Hk : Nat → ℤ
  B : Nat → ℚ

/-- Pointwise update of a one-index rational array. -/
def upd1 (f : Nat → ℚ) (i : Nat) (v : ℚ) : Nat → ℚ :=
  fun a => if a = i then v else f a

/-- Pointwise update of a two-index rational array. -/
def upd2 (f : Nat → Nat → ℚ) (i j : Nat) (v : ℚ) : Nat → Nat → ℚ :=
  fun a b => if a = i ∧ b = j then v else f a b

/-- Pointwise update of a one-index integer array (`daily`). -/
def updZ (f : Nat → ℤ) (k : Nat) (v : ℤ) : Nat → ℤ :=
  fun a => if a = k then v else f a

/-- Pointwise update of the boolean occupancy grid `occ`. -/
def updB (f : Nat → Nat → Bool) (k t : Nat) (v : Bool) : Nat → Nat → Bool :=
  fun a b => if a = k ∧ b = t then v else f a b

/-- The mutable state of `greedy` in `run_heuristic.py`: the arrays
`a2`, `x2`, `G`, `daily`, `occ` and the growing set `sched`
(embedded as a list; the python set never receives duplicates because
every insertion is guarded by `occ`). -/
structure HState where
  a2 : Nat → Nat → ℚ
  x2 : Nat → Nat → ℚ
  G : Nat → ℚ
  daily : Nat → ℤ
  occ : Nat → Nat → Bool
  sched : List HRec

/-- The all-zero starting state of one restart of `greedy`. -/
def hInit : HState :=
  { a2 := fun _ _ => 0
    x2 := fun _ _ => 0
    G := fun _ => 0
    daily := fun _ => 0
    occ := fun _ _ => false
    sched := [] }

/-- Function `objective(G, w, overtime, beta)` of `run_heuristic.py`:
weighted 4-point GPA minus `beta` times total overtime, where the
overtime is `np.maximum(daily - Hk, 0).sum()`. -/
def objectiveH (inst : HInst) (G : Nat → ℚ) (daily : Nat → ℤ) : ℚ :=
  ((List.range inst.I).map (fun i => inst.w i * G i)).sum
      / ((List.range inst.I).map (fun i => inst.w i)).sum * 4
    - inst.beta * ((((List.range inst.K).map
        (fun k => max (daily k - inst.Hk k) 0)).sum : ℤ) : ℚ)

/-- Function `inc_add` of `run_heuristic.py`: the O(1) incremental update of
`a2`, `x2`, `G`, `daily` when the slot `(k,t)` is assigned to task
`(i,j)`.  (The python function also returns the new objective; callers
of the embedding recompute it with `objectiveH` where needed.) -/
def inc_add (inst : HInst) (k t i j : Nat) (s : HState) : HState :=
  let old := s.x2 i j
  let a2n := upd2 s.a2 i j (s.a2 i j + inst.P4 k t i j)
  let x2n := upd2 s.x2 i j (min 1 (a2n i j / inst.E2 i j))
  { s with
    a2 := a2n
    x2 := x2n
    G := upd1 s.G i (s.G i + inst.S2 i j * (x2n i j - old))
    daily := updZ s.daily k (s.daily k + 1) }

/-- One accepted placement in a sweep of `greedy`:
`inc_add(...)`, `sched.add((k,t,c,task))`, `occ[k,t] = True`. -/
def placeRec (inst : HInst) (r : HRec) (s : HState) : HState :=
  let s1 := inc_add inst r.k r.t r.i r.j s
  { s1 with sched := r :: s1.sched, occ := updB s1.occ r.k r.t true }

/-- The mandatory-seeding loop of `greedy`
(`for k,t,c,task in mandatory: sched.add(...); occ[k,t]=True; inc_add(...)`). -/
def seedMandatory (inst : HInst) : List HRec → HState → HState
  | [], s => s
  | r :: rest, s =>
      seedMandatory inst rest
        (inc_add inst r.k r.t r.i r.j
          { s with sched := r :: s.sched, occ := updB s.occ r.k r.t true })

/-- First sweep of `greedy` (value-ordered, skip weight-0), including
the `if not unmet: break` head check, the `occ` skip, the guard
`S2[i,j] == 0.0 or x2[i,j] >= 1.0`, the `i not in unmet` skip, and the
`unmet.discard(i)` after a placement that reaches the pass line. -/
def sweep1 (inst : HInst) : List HRec → List Nat → HState → List Nat × HState
  | [], unmet, s => (unmet, s)
  | r :: rest, unmet, s =>
      if unmet = [] then (unmet, s)
      else if s.occ r.k r.t then sweep1 inst rest unmet s
      else if inst.S2 r.i r.j = 0 ∨ 1 ≤ s.x2 r.i r.j then sweep1 inst rest unmet s
      else if r.i ∈ unmet then
        let s1 := placeRec inst r s
        let unmet1 := if inst.B r.i ≤ s1.G r.i then unmet.filter (fun c => c ≠ r.i) else unmet
        sweep1 inst rest unmet1 s1
      else sweep1 inst rest unmet s

/-- Second sweep of `greedy` (“fill any remaining gaps”); it iterates the
same list `frac` in the same order, with the guard
`i not in unmet or S2[i,j] == 0.0 or x2[i,j] >= 1.0` checked before the
occupancy test. -/
def sweep2 (inst : HInst) : List HRec → List Nat → HState → List Nat × HState
  | [], unmet, s => (unmet, s)
  | r :: rest, unmet, s =>
      if unmet = [] then (unmet, s)
      else if r.i ∉ unmet ∨ inst.S2 r.i r.j = 0 ∨ 1 ≤ s.x2 r.i r.j then
        sweep2 inst rest unmet s
      else if s.occ r.k r.t then sweep2 inst rest unmet s
      else
        let s1 := placeRec inst r s
        let unmet1 := if inst.B r.i ≤ s1.G r.i then unmet.filter (fun c => c ≠ r.i) else unmet
        sweep2 inst rest unmet1 s1

/-- The tentative removal inside the prune loop of `greedy`:
`sched.remove(rec); occ[k,t] = False; old = x2[i,j]; a2[i,j] -= P4[k,t,i,j];
x2[i,j] = min(1.0, a2[i,j]/E2[i,j]); G[i] -= S2[i,j]*(old - x2[i,j]);
daily[k] -= 1`. -/
def pruneRemove (inst : HInst) (s : HState) (r : HRec) : HState :=
  let old := s.x2 r.i r.j
  let a2n := upd2 s.a2 r.i r.j (s.a2 r.i r.j - inst.P4 r.k r.t r.i r.j)
  let x2n := upd2 s.x2 r.i r.j (min 1 (a2n r.i r.j / inst.E2 r.i r.j))
  { sched := s.sched.erase r
    occ := updB s.occ r.k r.t false
    a2 := a2n
    x2 := x2n
    G := upd1 s.G r.i (s.G r.i - inst.S2 r.i r.j * (old - x2n r.i r.j))
    daily := updZ s.daily r.k (s.daily r.k - 1) }

/-- The restore branch of the prune loop, translated literally:
`sched.add(rec); occ[k,t] = True; a2[i,j] += P4[k,t,i,j]; x2[i,j] = old;
G[i] += S2[i,j] * (x2[i,j] - old); daily[k] += 1`.
Note that `x2[i,j]` has already been reassigned to `old` when the `G`
update reads it, exactly as in the source. -/
def pruneRestore (inst : HInst) (s : HState) (r : HRec) (old : ℚ) : HState :=
  let a2n := upd2 s.a2 r.i r.j (s.a2 r.i r.j + inst.P4 r.k r.t r.i r.j)
  let x2n := upd2 s.x2 r.i r.j old
  { sched := r :: s.sched
    occ := updB s.occ r.k r.t true
    a2 := a2n
    x2 := x2n
    G := upd1 s.G r.i (s.G r.i + inst.S2 r.i r.j * (x2n r.i r.j - old))
    daily := updZ s.daily r.k (s.daily r.k + 1) }

/-- One iteration of the prune loop of `greedy`, carrying `(state, util)`:
mandatory records are skipped, records with `S2[i,j] == 0.0` or
`x2[i,j] >= 1.0` are skipped, and an attempted removal is kept exactly
when `util_new + 1e-6 > util` and all course grades remain at or above
their pass lines. -/
def pruneStep (inst : HInst) (mand : List HRec) (su : HState × ℚ) (r : HRec) :
    HState × ℚ :=
  if r ∈ mand then su
  else if inst.S2 r.i r.j = 0 ∨ 1 ≤ su.1.x2 r.i r.j then su
  else
    let old := su.1.x2 r.i r.j
    let s1 := pruneRemove inst su.1 r
    let utilNew := objectiveH inst s1.G s1.daily
    if su.2 < utilNew + 1 / 1000000 ∧
        ∀ i ∈ List.range inst.I, inst.B i ≤ s1.G i then
      (s1, utilNew)
    else (pruneRestore inst s1 r old, su.2)

/-- The state of one restart after seeding and both sweeps of `greedy`
(everything before the prune loop), together with the remaining unmet
set.  `frac` is the candidate list in the order produced by
`frac.sort(key=lambda r: (-r.val, -r.coef, rng.random()))`. -/
def runSweeps (inst : HInst) (frac mand : List HRec) : List Nat × HState :=
  let s1 := seedMandatory inst mand hInit
  let unmet0 := (List.range inst.I).filter (fun i => s1.G i < inst.B i)
  let p1 := sweep1 inst frac unmet0 s1
  if p1.1 = [] then p1 else sweep2 inst frac p1.1 p1.2

/-- One full restart of `greedy` in `run_heuristic.py`: seeding, the two
sweeps, the prune loop over a snapshot of `sched`, and the final
recomputation `util = objective(G, w, ..., beta)` from the incremental
state.  Returns the final state and the reported utility. -/
def runHeuFull (inst : HInst) (frac mand : List HRec) : HState × ℚ :=
  let s3 := (runSweeps inst frac mand).2
  let util := objectiveH inst s3.G s3.daily
  let res := s3.sched.foldl (pruneStep inst mand) (s3, util)
  (res.1, objectiveH inst res.1.G res.1.daily)

/-- Function `evaluate` of `run_heuristic.py`: the batch from-scratch evaluation of
a schedule.  The python function receives a set of index tuples; the
embedding deduplicates the list for the same effect.  Returns the
utility. -/
def evaluateH (inst : HInst) (sched : List HRec) : ℚ :=
  let idx := sched.dedup
  let a2 := fun i j =>
    ((idx.filter (fun r => r.i = i ∧ r.j = j)).map
      (fun r => inst.P4 r.k r.t i j)).sum
  let daily := fun k => ((idx.filter (fun r => r.k = k)).length : ℤ)
  let x2 := fun i j => min 1 (a2 i j / inst.E2 i j)
  let G := fun i =>
    ((List.range inst.Jmax).map (fun j => inst.S2 i j * x2 i j)).sum
  objectiveH inst G daily

/-- The from-scratch course grade of a schedule, as computed inside
`evaluate` of `run_heuristic.py` (`G = (S2 * x2).sum(axis=1)`). -/
def gradeScratch (inst : HInst) (sched : List HRec) (i : Nat) : ℚ :=
  let idx := sched.dedup
  let a2 := fun j =>
    ((idx.filter (fun r => r.i = i ∧ r.j = j)).map
      (fun r => inst.P4 r.k r.t i j)).sum
  ((List.range inst.Jmax).map
    (fun j => inst.S2 i j * min 1 (a2 j / inst.E2 i j))).sum

/-- Number of placed slots of a schedule assigned to task `(i,j)`. -/
def countTaskH (sched : List HRec) (i j : Nat) : Nat :=
  (sched.filter (fun r => r.i = i ∧ r.j = j)).length

/-- Number of placed slots of a schedule on day `k` whose shift lies in
the 6-shift window starting at `t0` (shifts `t0, …, t0+5`). -/
def windowCountH (sched : List HRec) (k t0 : Nat) : Nat :=
  (sched.filter (fun r => r.k = k ∧ t0 ≤ r.t ∧ r.t < t0 + 6)).length

/-- The restart-selection loop of `main` in `run_heuristic.py`:
`best_u, best_sched = -1e18, None`, then for each restart result
`(sched, u)`: `if u > best_u + 1e-6: best_u, best_sched = u, sched`. -/
def bestOf (results : List (List HRec × ℚ)) : ℚ × Option (List HRec) :=
  results.foldl
    (fun best r => if best.1 + 1 / 1000000 < r.2 then (r.2, some r.1) else best)
    (-(10 : ℚ) ^ 18, none)

/-! ## Embedding of `heuristic.py` (the greedy-rounding scheduler) -/

/-- A variable key `(k, t, i, j)` of `heuristic.py`, with the course and
task names replaced by indices. -/
structure HKey where
  k : Nat
  t : Nat
  i : Nat
  j : Nat
deriving DecidableEq

/-- The instance data unpacked by `main` of `heuristic.py`: the day list
`K`, the shift list `T`, course count `I`, task counts `J`, the weights
`S`, efforts `E`, sparse productivities `P` (with the `.get((k,t), 0.0)`
default already folded into a total function), course weights `w`, pass
lines `B`, overtime rate `beta` and daily caps `Hstar`. -/
structure HPCtx where
  Kdays : List Nat
  Tl : List Nat
  I : Nat
  J : Nat → Nat
  S : Nat → Nat → ℚ
  E : Nat → Nat → ℚ
  P : Nat → Nat → Nat → Nat → ℚ
  w : Nat → ℚ
  B : Nat → ℚ
  beta : ℚ
  Hstar : Nat → ℤ

/-- Python `range(a, b)`: the integers `s` with `a ≤ s < b`. -/
def pyRange (a b : Nat) : List Nat :=
  (List.range b).filter (fun s => a ≤ s)

/-- The exclusivity half of `check_hard_constraints`: walking the
selected keys with a `used` set of `(k, t)` pairs, fail as soon as a
slot repeats. -/
def noDupSlots : List HKey → List (Nat × Nat) → Bool
  | [], _ => true
  | r :: rest, used =>
      if (r.k, r.t) ∈ used then false else noDupSlots rest ((r.k, r.t) :: used)

/-- The shifts selected on day `k` (the list `shifts` of
`check_hard_constraints`; the python `sorted` only fixes an iteration
order and does not change which windows are examined). -/
def dayShifts (sel : List HKey) (k : Nat) : List Nat :=
  (sel.filter (fun r => r.k = k)).map (fun r => r.t)

/-- The count `sum(1 for s in shifts if start <= s < start + 6)`. -/
def windowCount (ts : List Nat) (start : Nat) : Nat :=
  (ts.filter (fun s => start ≤ s ∧ s < start + 6)).length

/-- The break-rule half of `check_hard_constraints`: for every day `k`,
every selected shift `t` on it, and every window start in
`range(max(1, t-5), t+1)`, at most 4 selected shifts lie in the window
`[start, start+6)`. -/
def pacingOk (sel : List HKey) (Kdays : List Nat) : Bool :=
  Kdays.all (fun k =>
    (dayShifts sel k).all (fun t =>
      (pyRange (max 1 (t - 5)) (t + 1)).all (fun start =>
        windowCount (dayShifts sel k) start ≤ 4)))

/-- Function `check_hard_constraints(y_sel, K, T)` of `heuristic.py`; the `T`
argument is unused in the source as well. -/
def check_hard_constraints (sel : List HKey) (Kdays : List Nat)
    (_Tl : List Nat) : Bool :=
  noDupSlots sel [] && pacingOk sel Kdays

/-- Accumulated productivity `a_loc[i, j]` of the selected keys. -/
def hpA (ctx : HPCtx) (sel : List HKey) (i j : Nat) : ℚ :=
  ((sel.filter (fun r => r.i = i ∧ r.j = j)).map
    (fun r => ctx.P i j r.k r.t)).sum

/-- Completion `x_loc[i, j] = min(a/E, 1)`. -/
def hpX (ctx : HPCtx) (sel : List HKey) (i j : Nat) : ℚ :=
  min (hpA ctx sel i j / ctx.E i j) 1

/-- Course grade `G_i = sum_j S[i][j] * x_loc[i, j]`. -/
def hpG (ctx : HPCtx) (sel : List HKey) (i : Nat) : ℚ :=
  ((List.range (ctx.J i)).map (fun j => ctx.S i j * hpX ctx sel i j)).sum

/-- Function `check_minimum_grades`: every course satisfies
`not (G_i + 1e-9 < B[i])`. -/
def check_minimum_grades (ctx : HPCtx) (sel : List HKey) : Bool :=
  (List.range ctx.I).all
    (fun i => !(decide (hpG ctx sel i + 1 / 1000000000 < ctx.B i)))

/-- Selected-slot count of a day (the `shifts_per_day` tally of
`compute_objective`). -/
def countDay (sel : List HKey) (k : Nat) : Nat :=
  (sel.filter (fun r => r.k = k)).length

/-- Function `compute_objective` of `heuristic.py`: the weighted 4-point GPA of
the selection minus `beta` times the total overtime. -/
def compute_objective (ctx : HPCtx) (sel : List HKey) : ℚ :=
  ((List.range ctx.I).map (fun i => ctx.w i * hpG ctx sel i)).sum
      / ((List.range ctx.I).map (fun i => ctx.w i)).sum * 4
    - ctx.beta * (((ctx.Kdays.map
        (fun k => max ((countDay sel k : ℤ) - ctx.Hstar k) 0)).sum : ℤ) : ℚ)

/-- The greedy-rounding loop of `main` in `heuristic.py` over the sorted
candidate keys.  Carries the selected keys and `best_obj`; returns in
addition the unconsumed suffix of the candidate list (with the key that
triggered the `break` at its head), so that early termination is
observable.  A key is tentatively included, dropped again if
`check_hard_constraints` fails, and the loop stops — undoing the key —
as soon as `best_obj > -1e90`, the new objective is below `best_obj`,
and `check_minimum_grades` holds. -/
def roundLoop (ctx : HPCtx) :
    List HKey → List HKey → ℚ → List HKey × ℚ × List HKey
  | [], sel, best => (sel, best, [])
  | key :: rest, sel, best =>
      if check_hard_constraints (key :: sel) ctx.Kdays ctx.Tl = false then
        roundLoop ctx rest sel best
      else
        let obj := compute_objective ctx (key :: sel)
        if -(10 : ℚ) ^ 90 < best ∧ obj < best ∧
            check_minimum_grades ctx (key :: sel) = true then
          (sel, best, key :: rest)
        else roundLoop ctx rest (key :: sel) obj

/-- The full greedy rounding of `heuristic.py`: start from the empty
selection and `best_obj = -1e99`. -/
def heuristicRound (ctx : HPCtx) (parsed : List HKey) :
    List HKey × ℚ × List HKey :=
  roundLoop ctx parsed [] (-(10 : ℚ) ^ 99)

/-! ## Embedding of `run_greedy.py` -/

/-- A candidate `(k, t, c, task)` of `run_greedy.py`, with names replaced
by indices. -/
structure RGCand where
  k : Nat
  t : Nat
  c : Nat
  task : Nat
deriving DecidableEq

/-- The instance data `greedy` of `run_greedy.py` reads: task counts,
task weights `S`, efforts `E`, productivities `P` (total function with
the `.get(..., 0.0)` default folded in) and pass lines `B`. -/
structure RGInst where
  J : Nat → Nat
  S : Nat → Nat → ℚ
  E : Nat → Nat → ℚ
  P : Nat → Nat → Nat → Nat → ℚ
  B : Nat → ℚ

/-- Constant `SHIFTS_PER_HOUR = 1` of `run_greedy.py`. -/
def shiftsPerHour : ℚ := 1

/-- The mutable state of `greedy` in `run_greedy.py`. -/
structure RGState where
  occupied : Nat → Nat → Bool
  daily : Nat → ℤ
  a : Nat → Nat → ℚ
  x : Nat → Nat → ℚ
  schedule : List RGCand

/-- The all-empty starting state of `greedy` in `run_greedy.py`. -/
def rgInit : RGState :=
  { occupied := fun _ _ => false
    daily := fun _ => 0
    a := fun _ _ => 0
    x := fun _ _ => 0
    schedule := [] }

/-- Placed-slot count of task `(c, task)` (the `used` tally inside
`remaining_slots_allowed`). -/
def countRG (schedule : List RGCand) (c task : Nat) : Nat :=
  (schedule.filter (fun q => q.c = c ∧ q.task = task)).length

/-- Function `remaining_slots_allowed(c, task)` of `run_greedy.py`:
`max(0, ceil(E[c][task]/SHIFTS_PER_HOUR) - used)`. -/
def remaining_slots_allowed (inst : RGInst) (s : RGState) (c task : Nat) : ℤ :=
  max 0 (Int.ceil (inst.E c task / shiftsPerHour) - (countRG s.schedule c task : ℤ))

/-- A placement in either pass of `run_greedy.py`:
`occupied[k][t] = True; daily_used[k] += 1; schedule.add(...);
a_ij += P...; x_ij = min(1.0, a_ij/E)`. -/
def rgPlace (inst : RGInst) (q : RGCand) (s : RGState) : RGState :=
  let an := upd2 s.a q.c q.task (s.a q.c q.task + inst.P q.c q.task q.k q.t)
  { occupied := updB s.occupied q.k q.t true
    daily := updZ s.daily q.k (s.daily q.k + 1)
    a := an
    x := upd2 s.x q.c q.task (min 1 (an q.c q.task / inst.E q.c q.task))
    schedule := q :: s.schedule }

/-- Function `course_grade(c)` of `run_greedy.py`. -/
def course_grade (inst : RGInst) (s : RGState) (c : Nat) : ℚ :=
  ((List.range (inst.J c)).map (fun task => inst.S c task * s.x c task)).sum

/-- The first pass of `greedy` in `run_greedy.py` (greedy by value until
tasks complete or no slots): skip when the slot is occupied, the task is
complete, or `remaining_slots_allowed` is 0; otherwise place. -/
def rgPass1 (inst : RGInst) : List RGCand → RGState → RGState
  | [], s => s
  | q :: rest, s =>
      if s.occupied q.k q.t then rgPass1 inst rest s
      else if 1 ≤ s.x q.c q.task then rgPass1 inst rest s
      else if remaining_slots_allowed inst s q.c q.task = 0 then rgPass1 inst rest s
      else rgPass1 inst rest (rgPlace inst q s)

/-- The second (gap-filling) pass of `greedy` in `run_greedy.py` over the
re-sorted remainder list, with the `if not unmet_courses: break` head
check and the `unmet_courses.discard(c)` once the course grade reaches
its pass line. -/
def rgPass2 (inst : RGInst) : List RGCand → List Nat → RGState → RGState
  | [], _, s => s
  | q :: rest, unmet, s =>
      if unmet = [] then s
      else if s.occupied q.k q.t then rgPass2 inst rest unmet s
      else if remaining_slots_allowed inst s q.c q.task = 0 then rgPass2 inst rest unmet s
      else if 1 ≤ s.x q.c q.task then rgPass2 inst rest unmet s
      else
        let s1 := rgPlace inst q s
        let unmet1 :=
          if inst.B q.c ≤ course_grade inst s1 q.c then
            unmet.filter (fun c => c ≠ q.c)
          else unmet
        rgPass2 inst rest unmet1 s1

/-- A candidate of `run_greedy.py` paired with its first-pass sort key
`(-sval, -pval)` — the shape of the elements of the `candidates` list
(the third, random component of the key is dropped from the embedding as
an order tiebreak only). -/
abbrev RGCK : Type := RGCand × (ℚ × ℚ)

/-- The comparison the gap-filling re-sort of `run_greedy.py` actually
performs: its key is `lambda x: (-x[0][0], -x[0][1], rng.random())`,
and since `x[0]` is the candidate tuple `(k, t, c, task)`, the key sorts
by day descending, then shift descending.  `rgGapLt a b` holds when `a`
is strictly ordered before `b` under that key. -/
def rgGapLt (a b : RGCK) : Bool :=
  decide (b.1.k < a.1.k ∨ (a.1.k = b.1.k ∧ b.1.t < a.1.t))

/-- Insertion of one element into a list sorted by the strict comparison
`lt` (placed before the first element it strictly precedes). -/
def sortInsert (lt : RGCK → RGCK → Bool) (x : RGCK) : List RGCK → List RGCK
  | [] => [x]
  | y :: ys => if lt x y then x :: y :: ys else y :: sortInsert lt x ys

/-- Insertion sort by the strict comparison `lt` (python `list.sort` is a
stable sort; on candidates with pairwise distinct `(day, shift)` the
result coincides with this insertion sort). -/
def sortBy (lt : RGCK → RGCK → Bool) : List RGCK → List RGCK
  | [] => []
  | x :: xs => sortInsert lt x (sortBy lt xs)

/-- The construction of the gap-filling list `rem` in `run_greedy.py`:
filter the candidates to unmet courses and unoccupied slots, then sort
with the key `(-x[0][0], -x[0][1], ...)`. -/
def rgGapList (cands : List RGCK) (unmet : List Nat) (s : RGState) :
    List RGCK :=
  sortBy rgGapLt
    (cands.filter (fun q => q.1.c ∈ unmet ∧ !(s.occupied q.1.k q.1.t)))

/-! ## Embedding of the mandatory-set construction of `lp_relax`
  (`run_heuristic.py`) -/

/-- Lexicographic comparison of `(day, shift)` pairs, as python compares
tuples. -/
def pairLe (a b : Nat × Nat) : Prop :=
  a.1 < b.1 ∨ (a.1 = b.1 ∧ a.2 ≤ b.2)

instance (a b : Nat × Nat) : Decidable (pairLe a b) := by
  unfold pairLe; infer_instance

/-- The part of the instance `lp_relax` of `run_heuristic.py` reads to
build its variable set and mandatory set: the dimensions and the
release/due windows, plus the `slot` table flattened to a list of
`(course, task, day, shift)` entries. -/
structure LPInst where
  K : Nat
  T : Nat
  r : Nat → Nat → Nat × Nat
  d : Nat → Nat → Nat × Nat
  slot : List (Nat × Nat × Nat × Nat)

/-- The mandatory set built by `lp_relax`: a `slot` entry `(c, task, k, t)`
contributes `(k-1, t-1, c, task)` exactly when the variable
`y[k,t,c,task]` exists, i.e. when `1 ≤ k ≤ K`, `1 ≤ t ≤ T` and the slot
lies inside the release/due window of the task; all other entries are
silently dropped (`if (k,t,c,task) in y`). -/
def lpMandatory (L : LPInst) : List HRec :=
  L.slot.filterMap (fun q =>
    let c := q.1
    let task := q.2.1
    let k := q.2.2.1
    let t := q.2.2.2
    if 1 ≤ k ∧ k ≤ L.K ∧ 1 ≤ t ∧ t ≤ L.T ∧
        pairLe (L.r c task) (k, t) ∧ pairLe (k, t) (L.d c task) then
      some ⟨k - 1, t - 1, c, task⟩
    else none)

/-! ## Concrete instances used as counterexamples and witnesses -/

/-- Pacing counterexample instance for `run_heuristic.greedy`: one course,
one task, effort 10, pass line 1, six unit-productivity candidate slots
on day 0, shifts 0–5, no overtime penalty. -/
def cx1Inst : HInst :=
  { K := 1, T := 6, I := 1, Jmax := 1
    P4 := fun _ _ _ _ => 1
    S2 := fun _ _ => 1
    E2 := fun _ _ => 10
    w := fun _ => 1
    beta := 0
    Hk := fun _ => 100
    B := fun _ => 1 }

/-- The six candidates of `cx1Inst`, in sorted order. -/
def cx1Frac : List HRec :=
  [⟨0, 0, 0, 0⟩, ⟨0, 1, 0, 0⟩, ⟨0, 2, 0, 0⟩, ⟨0, 3, 0, 0⟩, ⟨0, 4, 0, 0⟩, ⟨0, 5, 0, 0⟩]

/-- Infeasibility counterexample instance for the restart driver: one
course, one task, effort 1, unreachable pass line 2 (the maximal grade
is 1), one unit-productivity candidate. -/
def cx2Inst : HInst :=
  { K := 1, T := 1, I := 1, Jmax := 1
    P4 := fun _ _ _ _ => 1
    S2 := fun _ _ => 1
    E2 := fun _ _ => 1
    w := fun _ => 1
    beta := 0
    Hk := fun _ => 100
    B := fun _ => 2 }

/-- The single candidate of `cx2Inst`. -/
def cx2Frac : List HRec := [⟨0, 0, 0, 0⟩]

/-- Pruner counterexample instance: one course, one task, effort 1,
pass line 1, overtime rate 1, day capacity 1, two candidates on day 0
with productivities 3/10 and 5.  After both are placed the task is
complete, the day is one slot over capacity, and removing the 3/10 slot
would keep the grade at 1 while deleting the overtime. -/
def cx3Inst : HInst :=
  { K := 1, T := 2, I := 1, Jmax := 1
    P4 := fun _ t _ _ => if t = 0 then 3 / 10 else 5
    S2 := fun _ _ => 1
    E2 := fun _ _ => 1
    w := fun _ => 1
    beta := 1
    Hk := fun _ => 1
    B := fun _ => 1 }

/-- The two candidates of `cx3Inst`, value-ordered. -/
def cx3Frac : List HRec := [⟨0, 0, 0, 0⟩, ⟨0, 1, 0, 0⟩]

/-- Cap-respect counterexample instance for `run_heuristic.greedy`: one
course, one task, `requiredEffort = 4` (so the spec cap is
`ceil(4/1) = 4`), eight candidates of productivity 1/2. -/
def cx4Inst : HInst :=
  { K := 1, T := 8, I := 1, Jmax := 1
    P4 := fun _ _ _ _ => 1 / 2
    S2 := fun _ _ => 1
    E2 := fun _ _ => 4
    w := fun _ => 1
    beta := 0
    Hk := fun _ => 100
    B := fun _ => 1 }

/-- The eight candidates of `cx4Inst`. -/
def cx4Frac : List HRec :=
  [⟨0, 0, 0, 0⟩, ⟨0, 1, 0, 0⟩, ⟨0, 2, 0, 0⟩, ⟨0, 3, 0, 0⟩,
   ⟨0, 4, 0, 0⟩, ⟨0, 5, 0, 0⟩, ⟨0, 6, 0, 0⟩, ⟨0, 7, 0, 0⟩]

/-- Objective-consistency counterexample instance: one course, one task,
effort 2, pass line 1/2, two candidates of productivity 3/5.  Both prune
attempts are rejected, and each rejected restore loses the grade delta. -/
def cx8Inst : HInst :=
  { K := 1, T := 2, I := 1, Jmax := 1
    P4 := fun _ _ _ _ => 3 / 5
    S2 := fun _ _ => 1
    E2 := fun _ _ => 2
    w := fun _ => 1
    beta := 0
    Hk := fun _ => 100
    B := fun _ => 1 / 2 }

/-- The two candidates of `cx8Inst`. -/
def cx8Frac : List HRec := [⟨0, 0, 0, 0⟩, ⟨0, 1, 0, 0⟩]

/-- The state of `cx8Inst` after seeding and both sweeps, at the entry of
the prune loop. -/
def cx8SweepState : HState := (runSweeps cx8Inst cx8Frac []).2

/-- Early-termination counterexample context for the rounding loop of
`heuristic.py`: one course with pass line 0 (grades always met), one
task of effort 10, three candidates on day 1; the middle one has zero
productivity and pushes the day over its cap of 1. -/
def cx6Ctx : HPCtx :=
  { Kdays := [1], Tl := [1, 2, 3], I := 1
    J := fun _ => 1
    S := fun _ _ => 1
    E := fun _ _ => 10
    P := fun _ _ k t => if k = 1 ∧ (t = 1 ∨ t = 3) then 1 else 0
    w := fun _ => 1
    B := fun _ => 0
    beta := 1
    Hstar := fun _ => 1 }

/-- The three sorted candidates of `cx6Ctx`. -/
def cx6Parsed : List HKey := [⟨1, 1, 0, 0⟩, ⟨1, 2, 0, 0⟩, ⟨1, 3, 0, 0⟩]

/-- Gap-filler re-sort counterexample instance for `run_greedy.py`: one
course with two tasks; task 0 has productivity 10 at slot (1,1), task 1
has productivity 1/10 at slot (2,1). -/
def cx5Inst : RGInst :=
  { J := fun _ => 2
    S := fun _ _ => 1
    E := fun _ _ => 1
    P := fun c task k t =>
      if c = 0 ∧ task = 0 ∧ k = 1 ∧ t = 1 then 10
      else if c = 0 ∧ task = 1 ∧ k = 2 ∧ t = 1 then 1 / 10
      else 0
    B := fun _ => 1 }

/-- The high-productivity early-slot candidate of `cx5Inst`, with its
first-pass sort key `(-sval, -pval)`. -/
def cx5CandA : RGCK := (⟨1, 1, 0, 0⟩, (-1, -10))

/-- The low-productivity late-slot candidate of `cx5Inst`. -/
def cx5CandB : RGCK := (⟨2, 1, 0, 1⟩, (-1, -(1 / 10)))

/-- Malformed-input counterexample for `lp_relax`: one course, one task
with release `(1,1)` and due `(1,2)`, and a mandatory slot `(1,5)`
outside that window. -/
def cx9LP : LPInst :=
  { K := 1, T := 8
    r := fun _ _ => (1, 1)
    d := fun _ _ => (1, 2)
    slot := [(0, 0, 1, 5)] }

/-- The greedy-side instance matching `cx9LP` (0-based slots), with one
well-formed candidate at day 0, shift 0. -/
def cx9Inst : HInst :=
  { K := 1, T := 8, I := 1, Jmax := 1
    P4 := fun _ t _ _ => if t = 0 then 1 else 0
    S2 := fun _ _ => 1
    E2 := fun _ _ => 1
    w := fun _ => 1
    beta := 0
    Hk := fun _ => 100
    B := fun _ => 1 }

/-- The single ranked candidate of `cx9Inst`. -/
def cx9Frac : List HRec := [⟨0, 0, 0, 0⟩]

/-! ## Counterexample and failing-input theorems -/

set_option maxRecDepth 8000 in
/-- C1 counterexample: on `cx1Inst` the greedy constructor of
`run_heuristic.py` places all six candidates of day 0, shifts 0–5, so
the 6-shift window starting at shift 0 holds 6 placed slots — the
claimed pacing bound of 4 is violated by a returned schedule, because
`greedy` in `run_heuristic.py` checks only slot occupancy, never the
sliding-window rule. -/
theorem greedy_schedule_violates_pacing_window :
    windowCountH (runHeuFull cx1Inst cx1Frac []).1.sched 0 0 = 6 ∧
    4 < windowCountH (runHeuFull cx1Inst cx1Frac []).1.sched 0 0 := by
  with_unfolding_all decide

/-- C2 counterexample: on `cx2Inst` (pass line 2, unreachable) the only
restart ends its gap-filling sweep with course 0 still unmet, yet the
driver of `run_heuristic.py` keeps that schedule as the best result —
nothing is discarded and no infeasibility is reported. -/
theorem restart_driver_keeps_infeasible_result :
    (runSweeps cx2Inst cx2Frac []).1 ≠ [] ∧
    gradeScratch cx2Inst (runHeuFull cx2Inst cx2Frac []).1.sched 0 < cx2Inst.B 0 ∧
    (bestOf [((runHeuFull cx2Inst cx2Frac []).1.sched,
        (runHeuFull cx2Inst cx2Frac []).2)]).2
      = some (runHeuFull cx2Inst cx2Frac []).1.sched := by
  with_unfolding_all decide

/-- C3 counterexample: in `cx3Inst` the non-mandatory slot `(0,0)` ends
with its task at completion fraction 1 on a day one slot over capacity;
removing it would keep every grade at the pass line and strictly raise
the objective, yet the pruner of `run_heuristic.py` skips every triple
whose task has `x2 >= 1.0` and leaves the slot in the schedule. -/
theorem pruner_keeps_redundant_completed_slot :
    (⟨0, 0, 0, 0⟩ : HRec) ∈ (runHeuFull cx3Inst cx3Frac []).1.sched ∧
    (runHeuFull cx3Inst cx3Frac []).1.x2 0 0 = 1 ∧
    cx3Inst.Hk 0 < (runHeuFull cx3Inst cx3Frac []).1.daily 0 ∧
    gradeScratch cx3Inst
        ((runHeuFull cx3Inst cx3Frac []).1.sched.erase ⟨0, 0, 0, 0⟩) 0
      = gradeScratch cx3Inst (runHeuFull cx3Inst cx3Frac []).1.sched 0 ∧
    cx3Inst.B 0 ≤ gradeScratch cx3Inst
        ((runHeuFull cx3Inst cx3Frac []).1.sched.erase ⟨0, 0, 0, 0⟩) 0 ∧
    (runHeuFull cx3Inst cx3Frac []).2
      < evaluateH cx3Inst
          ((runHeuFull cx3Inst cx3Frac []).1.sched.erase ⟨0, 0, 0, 0⟩) := by
  with_unfolding_all decide

/-- C4 counterexample: on `cx4Inst` (`requiredEffort = 4`, slot effort
unit 1, productivity 1/2) the greedy of `run_heuristic.py` places 8
slots for the single task, twice the claimed cap
`ceil(requiredEffort / slotEffortUnit) = 4`; its sweeps test only the
completion fraction, never a placement cap. -/
theorem cap_exceeded_by_run_heuristic_greedy :
    countTaskH (runHeuFull cx4Inst cx4Frac []).1.sched 0 0 = 8 ∧
    Int.ceil (cx4Inst.E2 0 0 / shiftsPerHour) = 4 := by
  with_unfolding_all decide

/-- C5 failing input: the gap-filling re-sort of `run_greedy.py` puts the
slot-`(2,1)` candidate of productivity 1/10 ahead of the slot-`(1,1)`
candidate of productivity 10, because its sort key reads the day and
shift of the candidate tuple instead of any productivity. -/
theorem gap_resort_orders_by_slot_not_productivity :
    rgGapList [cx5CandA, cx5CandB] [0] rgInit = [cx5CandB, cx5CandA] ∧
    cx5Inst.P 0 1 2 1 < cx5Inst.P 0 0 1 1 := by
  with_unfolding_all decide

set_option maxRecDepth 8000 in
/-- C6 counterexample: on `cx6Ctx` the rounding sweep of `heuristic.py`
stops at its second candidate (whose acceptance lowers the objective
while minimum grades hold) and never examines the third; the returned
unconsumed suffix is nonempty, so the sweep does not run to exhaustion
of the candidate list. -/
theorem rounding_loop_stops_before_list_end :
    (heuristicRound cx6Ctx cx6Parsed).2.2 = [⟨1, 2, 0, 0⟩, ⟨1, 3, 0, 0⟩] ∧
    (heuristicRound cx6Ctx cx6Parsed).1 = [⟨1, 1, 0, 0⟩] := by
  with_unfolding_all decide

/-- C8 failing input: on `cx8Inst` both prune attempts are rejected, each
rejected restore fails to put the grade delta back, and the utility
reported at termination is 0 while the from-scratch recomputation of the
same returned schedule gives 12/5 — a divergence far above the claimed
1e-6 tolerance. -/
theorem reported_utility_diverges_from_recomputation :
    (runHeuFull cx8Inst cx8Frac []).2 = 0 ∧
    evaluateH cx8Inst (runHeuFull cx8Inst cx8Frac []).1.sched = 12 / 5 ∧
    (1 : ℚ) / 1000000
      < evaluateH cx8Inst (runHeuFull cx8Inst cx8Frac []).1.sched
          - (runHeuFull cx8Inst cx8Frac []).2 := by
  with_unfolding_all decide

/-- C9 counterexample: `cx9LP` carries a mandatory slot `(1,5)` outside
the release/due window `[(1,1), (1,2)]` of its task.  `lp_relax` silently
drops it from the mandatory set instead of failing, and the greedy phase
then runs to completion and returns a schedule — no fatal error, no
report of the offending entity. -/
theorem malformed_mandatory_silently_dropped :
    (0, 0, 1, 5) ∈ cx9LP.slot ∧
    ¬ pairLe (1, 5) (cx9LP.d 0 0) ∧
    lpMandatory cx9LP = [] ∧
    (runHeuFull cx9Inst cx9Frac []).1.sched = [⟨0, 0, 0, 0⟩] := by
  with_unfolding_all decide

/-- C10 failing input: at the prune-entry state of `cx8Inst`, removing
the placed triple `(0,1,0,0)` and then restoring it (the exact
remove/restore code of the prune loop) returns `a2`, `x2`, `daily`,
`occ` and the schedule membership to their old values but leaves the
course grade at 3/10 instead of 3/5: the restore reads `x2[i,j]` after
reassigning it to `old`, so the grade update adds zero. -/
theorem restore_does_not_invert_removal :
    (pruneRestore cx8Inst (pruneRemove cx8Inst cx8SweepState ⟨0, 1, 0, 0⟩)
        ⟨0, 1, 0, 0⟩ (cx8SweepState.x2 0 0)).a2 0 0 = cx8SweepState.a2 0 0 ∧
    (pruneRestore cx8Inst (pruneRemove cx8Inst cx8SweepState ⟨0, 1, 0, 0⟩)
        ⟨0, 1, 0, 0⟩ (cx8SweepState.x2 0 0)).x2 0 0 = cx8SweepState.x2 0 0 ∧
    (pruneRestore cx8Inst (pruneRemove cx8Inst cx8SweepState ⟨0, 1, 0, 0⟩)
        ⟨0, 1, 0, 0⟩ (cx8SweepState.x2 0 0)).daily 0 = cx8SweepState.daily 0 ∧
    (pruneRestore cx8Inst (pruneRemove cx8Inst cx8SweepState ⟨0, 1, 0, 0⟩)
        ⟨0, 1, 0, 0⟩ (cx8SweepState.x2 0 0)).occ 0 1 = cx8SweepState.occ 0 1 ∧
    ((pruneRestore cx8Inst (pruneRemove cx8Inst cx8SweepState ⟨0, 1, 0, 0⟩)
        ⟨0, 1, 0, 0⟩ (cx8SweepState.x2 0 0)).sched).Perm cx8SweepState.sched ∧
    (pruneRestore cx8Inst (pruneRemove cx8Inst cx8SweepState ⟨0, 1, 0, 0⟩)
        ⟨0, 1, 0, 0⟩ (cx8SweepState.x2 0 0)).G 0 ≠ cx8SweepState.G 0 := by
  with_unfolding_all decide

/-! ## Membership lemmas for the greedy pipeline of `run_heuristic.py` -/

/-- Lemma: `inc_add` never touches the schedule. -/
theorem inc_add_sched (inst : HInst) (k t i j : Nat) (s : HState) :
    (inc_add inst k t i j s).sched = s.sched := rfl

/-- A sweep placement pushes the new record onto the schedule. -/
theorem placeRec_sched (inst : HInst) (r : HRec) (s : HState) :
    (placeRec inst r s).sched = r :: s.sched := rfl

/-- Everything in the mandatory list or already scheduled is scheduled
after seeding. -/
theorem seedMandatory_mem (inst : HInst) (r : HRec) :
    ∀ (l : List HRec) (s : HState), r ∈ l ∨ r ∈ s.sched →
      r ∈ (seedMandatory inst l s).sched := by
  intro l
  induction l with
  | nil =>
      intro s h
      simpa [seedMandatory] using h.resolve_left (List.not_mem_nil r)
  | cons q rest ih =>
      intro s h
      rw [seedMandatory]
      refine ih _ ?_
      rcases h with h | h
      · rcases List.mem_cons.mp h with h | h
        · right; simp [inc_add_sched, h]
        · left; exact h
      · right; simp [inc_add_sched, List.mem_cons, h]

/-- The first sweep only adds records to the schedule. -/
theorem sweep1_mem (inst : HInst) (r : HRec) :
    ∀ (l : List HRec) (unmet : List Nat) (s : HState), r ∈ s.sched →
      r ∈ (sweep1 inst l unmet s).2.sched := by
  intro l
  induction l with
  | nil => intro unmet s h; simpa [sweep1] using h
  | cons q rest ih =>
      intro unmet s h
      rw [sweep1]
      split
      · exact h
      · split
        · exact ih _ _ h
        · split
          · exact ih _ _ h
          · split
            · exact ih _ _ (by simp [placeRec_sched, List.mem_cons, h])
            · exact ih _ _ h

/-- The second sweep only adds records to the schedule. -/
theorem sweep2_mem (inst : HInst) (r : HRec) :
    ∀ (l : List HRec) (unmet : List Nat) (s : HState), r ∈ s.sched →
      r ∈ (sweep2 inst l unmet s).2.sched := by
  intro l
  induction l with
  | nil => intro unmet s h; simpa [sweep2] using h
  | cons q rest ih =>
      intro unmet s h
      rw [sweep2]
      split
      · exact h
      · split
        · exact ih _ _ h
        · split
          · exact ih _ _ h
          · exact ih _ _ (by simp [placeRec_sched, List.mem_cons, h])

/-- A prune iteration never drops a mandatory record from the schedule. -/
theorem pruneStep_mand_mem (inst : HInst) (mand : List HRec) (r : HRec)
    (hr : r ∈ mand) (su : HState × ℚ) (q : HRec) (h : r ∈ su.1.sched) :
    r ∈ (pruneStep inst mand su q).1.sched := by
  rw [pruneStep]
  split
  · exact h
  · split
    · exact h
    · rename_i hqmand _
      have hne : r ≠ q := fun hrq => hqmand (hrq ▸ hr)
      dsimp only
      split
      · exact (List.mem_erase_of_ne hne).mpr h
      · exact List.mem_cons.mpr (Or.inr ((List.mem_erase_of_ne hne).mpr h))

/-- The whole prune pass never drops a mandatory record. -/
theorem pruneFold_mand_mem (inst : HInst) (mand : List HRec) (r : HRec)
    (hr : r ∈ mand) :
    ∀ (l : List HRec) (su : HState × ℚ), r ∈ su.1.sched →
      r ∈ (l.foldl (pruneStep inst mand) su).1.sched := by
  intro l
  induction l with
  | nil => intro su h; simpa using h
  | cons q rest ih =>
      intro su h
      exact ih _ (pruneStep_mand_mem inst mand r hr su q h)

/-- C7: every mandatory candidate is contained in the schedule returned
by `greedy` of `run_heuristic.py`: seeding places it, the sweeps only
add further records, and the prune loop skips mandatory records and only
erases non-mandatory ones. -/
theorem mandatory_always_scheduled (inst : HInst) (frac mand : List HRec)
    (r : HRec) (h : r ∈ mand) :
    r ∈ (runHeuFull inst frac mand).1.sched := by
  have hseed : r ∈ (seedMandatory inst mand hInit).sched :=
    seedMandatory_mem inst r mand hInit (Or.inl h)
  have hsweeps : r ∈ (runSweeps inst frac mand).2.sched := by
    rw [runSweeps]
    split
    · exact sweep1_mem inst r _ _ _ hseed
    · exact sweep2_mem inst r _ _ _ (sweep1_mem inst r _ _ _ hseed)
  exact pruneFold_mand_mem inst mand r h _ _ hsweeps

/-- Witness for C7 at a concrete input: with the single mandatory record
`(0,0,0,0)` of `cx2Inst`, the returned schedule contains it. -/
theorem mandatory_always_scheduled_witness :
    (⟨0, 0, 0, 0⟩ : HRec) ∈ (runHeuFull cx2Inst [] [⟨0, 0, 0, 0⟩]).1.sched :=
  mandatory_always_scheduled cx2Inst [] [⟨0, 0, 0, 0⟩] ⟨0, 0, 0, 0⟩ (by decide)

/-! ## Selection rule of the restart driver -/

/-- The fold step of `bestOf` (the body of the restart loop of `main`). -/
def bestStep (best : ℚ × Option (List HRec)) (r : List HRec × ℚ) :
    ℚ × Option (List HRec) :=
  if best.1 + 1 / 1000000 < r.2 then (r.2, some r.1) else best

/-- Characterization of the fold underlying `bestOf`: the incumbent value
never decreases, the result is either the starting incumbent or the pair
of some processed restart, and every processed utility is at most the
final incumbent plus `1e-6`. -/
theorem bestOf_fold_spec :
    ∀ (l : List (List HRec × ℚ)) (b : ℚ × Option (List HRec)),
      b.1 ≤ (l.foldl bestStep b).1 ∧
      (l.foldl bestStep b = b ∨ ∃ r ∈ l, l.foldl bestStep b = (r.2, some r.1)) ∧
      ∀ r ∈ l, r.2 ≤ (l.foldl bestStep b).1 + 1 / 1000000 := by
  intro l
  induction l with
  | nil => intro b; refine ⟨le_refl _, Or.inl rfl, ?_⟩; intro r hr; cases hr
  | cons q rest ih =>
      intro b
      have step : List.foldl bestStep b (q :: rest) = List.foldl bestStep (bestStep b q) rest := rfl
      obtain ⟨ih1, ih2, ih3⟩ := ih (bestStep b q)
      by_cases hq : b.1 + 1 / 1000000 < q.2
      · have hbq : bestStep b q = (q.2, some q.1) := if_pos hq
        have hval : (bestStep b q).1 = q.2 := by rw [hbq]
        refine ⟨?_, ?_, ?_⟩
        · rw [step]
          refine le_trans ?_ ih1
          rw [hval]
          linarith
        · rw [step]
          rcases ih2 with h | ⟨r, hrmem, hres⟩
          · exact Or.inr ⟨q, List.mem_cons_self q rest, by rw [h, hbq]⟩
          · exact Or.inr ⟨r, List.mem_cons_of_mem q hrmem, hres⟩
        · intro r hr
          rw [step]
          rcases List.mem_cons.mp hr with h | h
          · rw [h]
            rw [hval] at ih1
            linarith
          · exact ih3 r h
      · have hbq : bestStep b q = b := if_neg hq
        have hval : (bestStep b q).1 = b.1 := by rw [hbq]
        refine ⟨?_, ?_, ?_⟩
        · rw [step]
          rw [hval] at ih1
          exact ih1
        · rw [step]
          rcases ih2 with h | ⟨r, hrmem, hres⟩
          · exact Or.inl (by rw [h, hbq])
          · exact Or.inr ⟨r, List.mem_cons_of_mem q hrmem, hres⟩
        · intro r hr
          rw [step]
          rcases List.mem_cons.mp hr with h | h
          · rw [h]
            push_neg at hq
            rw [hval] at ih1
            linarith
          · exact ih3 r h

/-- C2 (amended): the restart driver of `run_heuristic.py` applies no
feasibility filter at all; it keeps the first restart result whose
utility exceeds the incumbent by more than `1e-6` (so ties within `1e-6`
are broken in favor of the first-found result), and the selected pair is
either the `(-1e18, None)` initialization or the literal result of one
of the restarts.  Every restart utility is at most the selected utility
plus `1e-6`. -/
theorem restart_driver_selection (results : List (List HRec × ℚ)) :
    (∀ r ∈ results, r.2 ≤ (bestOf results).1 + 1 / 1000000) ∧
    (bestOf results = (-(10 : ℚ) ^ 18, none) ∨
      ∃ r ∈ results, bestOf results = (r.2, some r.1)) := by
  have h := bestOf_fold_spec results (-(10 : ℚ) ^ 18, none)
  have hb : bestOf results = results.foldl bestStep (-(10 : ℚ) ^ 18, none) := by
    rw [bestOf]
    rfl
  exact ⟨by rw [hb]; exact h.2.2, by rw [hb]; exact h.2.1⟩

/-- Witness for the amended C2 theorem: on the single restart result of
`cx2Inst` the selected utility dominates the utility of the result up to
`1e-6`. -/
theorem restart_driver_selection_witness :
    (4 : ℚ) ≤ (bestOf [([⟨0, 0, 0, 0⟩], (4 : ℚ))]).1 + 1 / 1000000 := by
  have h := restart_driver_selection [([⟨0, 0, 0, 0⟩], (4 : ℚ))]
  exact h.1 ([⟨0, 0, 0, 0⟩], (4 : ℚ)) (List.mem_singleton.mpr rfl)

/-! ## The pacing invariant of the rounding loop of `heuristic.py` -/

/-- The empty selection passes `check_hard_constraints`. -/
theorem checkHard_nil (Kdays Tl : List Nat) :
    check_hard_constraints [] Kdays Tl = true := by
  simp [check_hard_constraints, noDupSlots, pacingOk, dayShifts]

/-- Invariant of the rounding loop: if the running selection passes
`check_hard_constraints`, so does the final selection, because a key is
accepted only after the check passed with the key included. -/
theorem roundLoop_checkHard (ctx : HPCtx) :
    ∀ (l sel : List HKey) (best : ℚ),
      check_hard_constraints sel ctx.Kdays ctx.Tl = true →
      check_hard_constraints (roundLoop ctx l sel best).1 ctx.Kdays ctx.Tl = true := by
  intro l
  induction l with
  | nil => intro sel best h; simpa [roundLoop] using h
  | cons key rest ih =>
      intro sel best h
      rw [roundLoop]
      split
      · exact ih sel best h
      · rename_i hchk
        have hck : check_hard_constraints (key :: sel) ctx.Kdays ctx.Tl = true := by
          cases hcase : check_hard_constraints (key :: sel) ctx.Kdays ctx.Tl
          · exact absurd hcase hchk
          · rfl
        dsimp only
        split
        · exact h
        · exact ih _ _ hck

/-- A selection passing `check_hard_constraints` has at most 4 slots in
every 6-shift window of every checked day: the code examines, for every
selected shift `t`, every window start in `[max(1, t-5), t]`, and any
window `[t0, t0+6)` with a slot in it and `t0 ≥ 1` is of that shape. -/
theorem pacing_of_checkHard (sel : List HKey) (Kdays Tl : List Nat)
    (k t0 : Nat) (hc : check_hard_constraints sel Kdays Tl = true)
    (hk : k ∈ Kdays) (h1 : 1 ≤ t0) :
    windowCount (dayShifts sel k) t0 ≤ 4 := by
  by_contra hgt
  push_neg at hgt
  have hpos : 0 < windowCount (dayShifts sel k) t0 := by omega
  rw [windowCount] at hpos
  obtain ⟨t, htf⟩ := List.exists_mem_of_length_pos hpos
  have htf2 := List.mem_filter.mp htf
  have htday : t ∈ dayShifts sel k := htf2.1
  have htwin : t0 ≤ t ∧ t < t0 + 6 := by
    have := htf2.2
    simpa using this
  have hpac : pacingOk sel Kdays = true := by
    have := (Bool.and_eq_true _ _).mp hc
    exact this.2
  rw [pacingOk] at hpac
  rw [List.all_eq_true] at hpac
  have hday := hpac k hk
  rw [List.all_eq_true] at hday
  have hstart := hday t htday
  rw [List.all_eq_true] at hstart
  have ht0mem : t0 ∈ pyRange (max 1 (t - 5)) (t + 1) := by
    rw [pyRange]
    rw [List.mem_filter]
    constructor
    · rw [List.mem_range]; omega
    · simp only [decide_eq_true_eq]
      refine max_le h1 ?_
      omega
  have := hstart t0 ht0mem
  simp only [decide_eq_true_eq] at this
  omega

/-- C1 (amended): the pacing rule lives in `heuristic.py`, not in the
greedy of `run_heuristic.py`.  The rounding sweep of `heuristic.py`
checks `check_hard_constraints` with the new placement included on every
attempted placement and drops the candidate otherwise, so every
selection it returns has at most 4 occupied slots in every 6-shift
window of every day of the instance. -/
theorem rounding_pacing_bound (ctx : HPCtx) (parsed : List HKey)
    (k t0 : Nat) (hk : k ∈ ctx.Kdays) (h1 : 1 ≤ t0) :
    windowCount (dayShifts (heuristicRound ctx parsed).1 k) t0 ≤ 4 := by
  have hinv := roundLoop_checkHard ctx parsed [] (-(10 : ℚ) ^ 99)
    (checkHard_nil ctx.Kdays ctx.Tl)
  rw [heuristicRound]
  exact pacing_of_checkHard _ _ ctx.Tl k t0 hinv hk h1

/-- Witness for the amended C1 theorem at a concrete input. -/
theorem rounding_pacing_bound_witness :
    windowCount (dayShifts (heuristicRound cx6Ctx cx6Parsed).1 1) 1 ≤ 4 :=
  rounding_pacing_bound cx6Ctx cx6Parsed 1 1 (by decide) (by decide)

/-! ## Stop behavior of the rounding sweep of `heuristic.py` -/

/-- C6 (amended): the rounding sweep of `heuristic.py` either consumes
the entire candidate list, or stops early at a candidate at which the
early-termination test of the source fires: the candidate passed the hard
check, a solution had already been accepted (`best_obj > -1e90`), its
inclusion lowered the objective, and minimum grades were met with it
included.  (The first sweep of `run_heuristic.py` likewise breaks early
once `unmet` is empty; every placement there requires an unmet course,
so that break is equivalent to its `i not in unmet` skip.) -/
theorem rounding_loop_stop_characterization (ctx : HPCtx) :
    ∀ (l sel : List HKey) (best : ℚ),
      (roundLoop ctx l sel best).2.2 = [] ∨
      ∃ key tail, (roundLoop ctx l sel best).2.2 = key :: tail ∧
        check_hard_constraints (key :: (roundLoop ctx l sel best).1)
          ctx.Kdays ctx.Tl = true ∧
        -(10 : ℚ) ^ 90 < (roundLoop ctx l sel best).2.1 ∧
        compute_objective ctx (key :: (roundLoop ctx l sel best).1)
          < (roundLoop ctx l sel best).2.1 ∧
        check_minimum_grades ctx (key :: (roundLoop ctx l sel best).1) = true := by
  intro l
  induction l with
  | nil => intro sel best; left; simp [roundLoop]
  | cons key rest ih =>
      intro sel best
      rw [roundLoop]
      split
      · exact ih sel best
      · rename_i hchk
        have hck : check_hard_constraints (key :: sel) ctx.Kdays ctx.Tl = true := by
          cases hcase : check_hard_constraints (key :: sel) ctx.Kdays ctx.Tl
          · exact absurd hcase hchk
          · rfl
        dsimp only
        split
        · rename_i hstop
          right
          exact ⟨key, rest, rfl, hck, hstop.1, hstop.2.1, hstop.2.2⟩
        · exact ih _ _

/-! ## Keep/restore rule of the pruner -/

/-- C3 (amended): the pruner of `run_heuristic.py` never even attempts a
triple whose task has zero weight or is already at completion fraction
`>= 1.0` — those are skipped outright.  For a triple it does attempt,
the removal is kept (the triple leaves the schedule) exactly when the
after-removal utility satisfies `util_new + 1e-6 > util` (so ties, and
even drops below `1e-6`, favor removal) and every course grade after the
removal is still at or above its pass line; otherwise the triple is
restored. -/
theorem pruneStep_keep_iff (inst : HInst) (mand : List HRec) (s : HState)
    (util : ℚ) (r : HRec) (_hmem : r ∈ s.sched) (hnd : s.sched.Nodup)
    (hm : r ∉ mand) (hg : ¬(inst.S2 r.i r.j = 0 ∨ 1 ≤ s.x2 r.i r.j)) :
    (r ∉ (pruneStep inst mand (s, util) r).1.sched ↔
      (util < objectiveH inst (pruneRemove inst s r).G (pruneRemove inst s r).daily
          + 1 / 1000000 ∧
        ∀ i ∈ List.range inst.I, inst.B i ≤ (pruneRemove inst s r).G i)) := by
  rw [pruneStep]
  rw [if_neg hm]
  rw [if_neg hg]
  dsimp only
  split
  · rename_i hcond
    simp only [iff_true_intro hcond]
    constructor
    · intro _; trivial
    · intro _
      exact List.Nodup.not_mem_erase hnd
  · rename_i hcond
    constructor
    · intro habs
      exact absurd (List.mem_cons_self _ _) habs
    · intro hc
      exact absurd hc hcond

/-- Witness for the amended C3 theorem: at the prune-entry state of
`cx8Inst`, the attempted removal of `(0,1,0,0)` is restored (both
rejection conditions are evaluated concretely). -/
theorem pruneStep_keep_iff_witness :
    ((⟨0, 1, 0, 0⟩ : HRec)
        ∉ (pruneStep cx8Inst [] (cx8SweepState, 12 / 5) ⟨0, 1, 0, 0⟩).1.sched ↔
      ((12 : ℚ) / 5 < objectiveH cx8Inst
          (pruneRemove cx8Inst cx8SweepState ⟨0, 1, 0, 0⟩).G
          (pruneRemove cx8Inst cx8SweepState ⟨0, 1, 0, 0⟩).daily + 1 / 1000000 ∧
        ∀ i ∈ List.range cx8Inst.I,
          cx8Inst.B i ≤ (pruneRemove cx8Inst cx8SweepState ⟨0, 1, 0, 0⟩).G i)) :=
  pruneStep_keep_iff cx8Inst [] cx8SweepState (12 / 5) ⟨0, 1, 0, 0⟩
    (by with_unfolding_all decide) (by with_unfolding_all decide)
    (by decide) (by with_unfolding_all decide)

/-! ## The per-task placement cap in `run_greedy.py` -/

/-- A placement changes only the placed-slot count of its own task, by one. -/
theorem countRG_place (inst : RGInst) (q : RGCand) (s : RGState) (c task : Nat) :
    countRG (rgPlace inst q s).schedule c task =
      if q.c = c ∧ q.task = task then countRG s.schedule c task + 1
      else countRG s.schedule c task := by
  rw [rgPlace]
  dsimp only
  rw [countRG, countRG, List.filter_cons]
  split
  · rename_i hq
    simp only [decide_eq_true_eq] at hq
    rw [if_pos hq]
    simp
  · rename_i hq
    simp only [decide_eq_true_eq] at hq
    rw [if_neg hq]

/-- If a candidate passes the `remaining_slots_allowed` test, the count
of its task is strictly below the ceiling cap. -/
theorem count_lt_cap_of_remaining (inst : RGInst) (s : RGState) (c task : Nat)
    (h : ¬remaining_slots_allowed inst s c task = 0) :
    (countRG s.schedule c task : ℤ) < Int.ceil (inst.E c task / shiftsPerHour) := by
  rw [remaining_slots_allowed] at h
  omega

/-- The first pass of `run_greedy.py` keeps the placed-slot count of
every task at or below `ceil(E/SHIFTS_PER_HOUR)` whenever it starts that way:
each placement is guarded by `remaining_slots_allowed`. -/
theorem rgPass1_cap (inst : RGInst) :
    ∀ (l : List RGCand) (s : RGState),
      (∀ c task, (countRG s.schedule c task : ℤ)
          ≤ Int.ceil (inst.E c task / shiftsPerHour)) →
      ∀ c task, (countRG (rgPass1 inst l s).schedule c task : ℤ)
        ≤ Int.ceil (inst.E c task / shiftsPerHour) := by
  intro l
  induction l with
  | nil => intro s h c task; simpa [rgPass1] using h c task
  | cons q rest ih =>
      intro s h c task
      rw [rgPass1]
      split
      · exact ih s h c task
      · split
        · exact ih s h c task
        · split
          · exact ih s h c task
          · rename_i hocc hx hrem
            refine ih _ ?_ c task
            intro c2 task2
            rw [countRG_place]
            split
            · rename_i hq
              push_cast
              have := count_lt_cap_of_remaining inst s q.c q.task hrem
              rw [hq.1, hq.2] at this
              omega
            · exact h c2 task2

/-- The gap-filling pass of `run_greedy.py` keeps the same cap invariant. -/
theorem rgPass2_cap (inst : RGInst) :
    ∀ (l : List RGCand) (unmet : List Nat) (s : RGState),
      (∀ c task, (countRG s.schedule c task : ℤ)
          ≤ Int.ceil (inst.E c task / shiftsPerHour)) →
      ∀ c task, (countRG (rgPass2 inst l unmet s).schedule c task : ℤ)
        ≤ Int.ceil (inst.E c task / shiftsPerHour) := by
  intro l
  induction l with
  | nil => intro unmet s h c task; simpa [rgPass2] using h c task
  | cons q rest ih =>
      intro unmet s h c task
      rw [rgPass2]
      split
      · exact h c task
      · split
        · exact ih unmet s h c task
        · split
          · exact ih unmet s h c task
          · split
            · exact ih unmet s h c task
            · rename_i hne hocc hrem hx
              refine ih _ _ ?_ c task
              intro c2 task2
              rw [countRG_place]
              split
              · rename_i hq
                push_cast
                have := count_lt_cap_of_remaining inst s q.c q.task hrem
                rw [hq.1, hq.2] at this
                omega
              · exact h c2 task2

/-- C4 (amended): in `run_greedy.py` both sweeps skip any candidate whose
task has exhausted `remaining_slots_allowed`, so if every per-task count
respects the cap `ceil(requiredEffort/SHIFTS_PER_HOUR)` after mandatory
seeding, it still does after both passes.  (`run_heuristic.py`, by
contrast, has no cap check at all — see the counterexample.) -/
theorem run_greedy_respects_cap (inst : RGInst) (cands1 cands2 : List RGCand)
    (unmet : List Nat) (s0 : RGState)
    (h : ∀ c task, (countRG s0.schedule c task : ℤ)
        ≤ Int.ceil (inst.E c task / shiftsPerHour)) :
    ∀ c task,
      (countRG (rgPass2 inst cands2 unmet (rgPass1 inst cands1 s0)).schedule c task : ℤ)
        ≤ Int.ceil (inst.E c task / shiftsPerHour) :=
  rgPass2_cap inst cands2 unmet (rgPass1 inst cands1 s0)
    (rgPass1_cap inst cands1 s0 h)

/-- Witness for the amended C4 theorem: on `cx5Inst` with an empty
schedule (no mandatory slots) and the two slot-1 candidates, the final
count of task `(0,0)` respects its cap. -/
theorem run_greedy_respects_cap_witness :
    (countRG (rgPass2 cx5Inst [⟨2, 1, 0, 1⟩] [0]
        (rgPass1 cx5Inst [⟨1, 1, 0, 0⟩] rgInit)).schedule 0 0 : ℤ)
      ≤ Int.ceil (cx5Inst.E 0 0 / shiftsPerHour) := by
  refine run_greedy_respects_cap cx5Inst [⟨1, 1, 0, 0⟩] [⟨2, 1, 0, 1⟩] [0] rgInit ?_ 0 0
  intro c task
  show ((countRG [] c task : ℤ) ≤ _)
  rw [countRG]
  simp only [List.filter_nil, List.length_nil]
  show (0 : ℤ) ≤ Int.ceil ((1 : ℚ) / 1)
  norm_num

/-! ## Silent handling of malformed mandatory slots in `lp_relax` -/

/-- C9 (amended): `lp_relax` performs no input validation.  Its mandatory
set contains only entries whose slot exists as an LP variable — in day
and shift range and inside the release/due window of the task; every other
`slot` entry (in particular a mandatory slot outside the window of its task,
or any slot of a task whose release lies after its due) contributes
nothing, silently: no error, no report, and the greedy phase still runs
and returns a schedule. -/
theorem lpMandatory_only_in_window (L : LPInst) (m : HRec)
    (h : m ∈ lpMandatory L) :
    ∃ c task k t, (c, task, k, t) ∈ L.slot ∧
      1 ≤ k ∧ k ≤ L.K ∧ 1 ≤ t ∧ t ≤ L.T ∧
      pairLe (L.r c task) (k, t) ∧ pairLe (k, t) (L.d c task) ∧
      m = ⟨k - 1, t - 1, c, task⟩ := by
  rw [lpMandatory] at h
  rw [List.mem_filterMap] at h
  obtain ⟨q, hq, hf⟩ := h
  refine ⟨q.1, q.2.1, q.2.2.1, q.2.2.2, hq, ?_⟩
  by_cases hcond : 1 ≤ q.2.2.1 ∧ q.2.2.1 ≤ L.K ∧ 1 ≤ q.2.2.2 ∧ q.2.2.2 ≤ L.T ∧
      pairLe (L.r q.1 q.2.1) (q.2.2.1, q.2.2.2) ∧
      pairLe (q.2.2.1, q.2.2.2) (L.d q.1 q.2.1)
  · rw [if_pos hcond] at hf
    obtain ⟨h1, h2, h3, h4, h5, h6⟩ := hcond
    exact ⟨h1, h2, h3, h4, h5, h6, (Option.some_injective _ hf).symm⟩
  · rw [if_neg hcond] at hf
    cases hf

/-- An `LPInst` whose single mandatory slot lies inside its window, used
to exercise the C9 theorem at a concrete input. -/
def cx9LPgood : LPInst :=
  { K := 1, T := 8
    r := fun _ _ => (1, 1)
    d := fun _ _ => (1, 2)
    slot := [(0, 0, 1, 1)] }

/-- Witness for the amended C9 theorem: the one mandatory record produced
on `cx9LPgood` indeed stems from an in-range, in-window slot entry. -/
theorem lpMandatory_only_in_window_witness :
    ∃ c task k t, (c, task, k, t) ∈ cx9LPgood.slot ∧
      1 ≤ k ∧ k ≤ cx9LPgood.K ∧ 1 ≤ t ∧ t ≤ cx9LPgood.T ∧
      pairLe (cx9LPgood.r c task) (k, t) ∧ pairLe (k, t) (cx9LPgood.d c task) ∧
      (⟨0, 0, 0, 0⟩ : HRec) = ⟨k - 1, t - 1, c, task⟩ :=
  lpMandatory_only_in_window cx9LPgood ⟨0, 0, 0, 0⟩ (by decide)
